import Mathlib

/-!
Verification of the Allocine review-scraping pipeline
(`src/web_scraping/allocine_scraper_class.py`).

The scraper is embedded shallowly: network effects are an environment
function from the requested URL to a fetch outcome, Python list mutation
becomes explicit state passing over `ScraperState`, and the Python string
operations used by the extraction code (`strip`, `lower`, `split(sep)`,
`int(...)`, `' '.join`) are reimplemented over `List Char`.
-/

/-- Python whitespace characters recognised by `str.strip()`. -/
def pySpace (c : Char) : Bool :=
  c == ' ' || c == '\t' || c == '\n' || c == '\r' || c.toNat == 11 || c.toNat == 12

/-- Python `str.strip()`: drop leading and trailing whitespace. -/
def pyStrip (s : String) : String :=
  String.mk (((s.toList.dropWhile pySpace).reverse.dropWhile pySpace).reverse)

/-- Python `str.lower()` (ASCII case folding suffices for the marker test). -/
def pyLower (s : String) : String :=
  String.mk (s.toList.map Char.toLower)

/-- Auxiliary splitter: Python `str.split(sep)` with a one-character
separator, keeping empty fields. -/
def splitCharAux (c : Char) : List Char → List Char → List (List Char)
  | [], acc => [acc.reverse]
  | d :: rest, acc =>
    if d == c then acc.reverse :: splitCharAux c rest []
    else splitCharAux c rest (d :: acc)

/-- Python `s.split(c)` for a single-character separator `c`. -/
def pySplitChar (s : String) (c : Char) : List String :=
  (splitCharAux c s.toList []).map String.mk

/-- Value of a nonempty all-digit character list, `none` otherwise. -/
def digitsVal : List Char → Option Nat
  | [] => none
  | l =>
    if l.all Char.isDigit then
      some (l.foldl (fun a c => a * 10 + (c.toNat - 48)) 0)
    else none

/-- Python `int(s)`: optional sign after stripping whitespace, then digits. -/
def pyInt (s : String) : Option Int :=
  match (pyStrip s).toList with
  | '-' :: rest => (digitsVal rest).map (fun n => -(n : Int))
  | '+' :: rest => (digitsVal rest).map Int.ofNat
  | l => (digitsVal l).map Int.ofNat

/-- `matchesAt needle hay`: `needle` is an initial segment of `hay`. -/
def matchesAt : List Char → List Char → Bool
  | [], _ => true
  | _ :: _, [] => false
  | a :: as, b :: bs => a == b && matchesAt as bs

/-- `containsList needle hay`: `needle` occurs contiguously in `hay`
(Python's `needle in hay` on strings). -/
def containsList (needle : List Char) : List Char → Bool
  | [] => needle.isEmpty
  | c :: rest => matchesAt needle (c :: rest) || containsList needle rest

/-- The marker test of `collect_review_links`:
`"spectateurs" in tag.text.strip().lower()`. -/
def hasSpectateurs (s : String) : Bool :=
  containsList "spectateurs".toList ((pyStrip s).toList.map Char.toLower)

/-- `score_clean = int(score.text.strip().split(",")[0].strip())`,
made total by returning `none` where Python `int` raises. -/
def score_clean (s : String) : Option Int :=
  pyInt (pyStrip ((pySplitChar (pyStrip s) ',').headD ""))

/-- `critic_clean = critic.text.strip()`. -/
def critic_clean (s : String) : String :=
  pyStrip s

/-- `year_clean = ' '.join(year.text.strip().split(' ')[2:])`. -/
def year_clean (s : String) : String :=
  String.intercalate " " ((pySplitChar (pyStrip s) ' ').drop 2)

/-- Listing-page URL built by `collect_review_links`:
`f"https://www.allocine.fr/films/genre-{type_id}/pays-5002/?page={nb_page}"`. -/
def listingUrl (typeId : String) (nbPage : Nat) : String :=
  "https://www.allocine.fr/films/genre-" ++ typeId ++ "/pays-5002/?page=" ++ toString nbPage

/-- Review-page URL built by `scrape_reviews`: `link + "?page=1"`. -/
def reviewUrl (link : String) : String :=
  link ++ "?page=1"

/-- A rendered anchor element (`a.xXx.rating-title`): its visible text and
its `href` attribute. -/
structure Anchor where
  text : String
  href : String
deriving DecidableEq

/-- Outcome of a browser-driven listing-page load. -/
inductive ListingFetch
  | timeout
  | page (anchors : List Anchor)
deriving DecidableEq

/-- Outcome of a direct review-page request: an exception from
`requests.get` (network error/timeout or any parse setup failure), a
non-`ok` HTTP response, or a parsed page giving the visible texts of the
three located node sets in document order. -/
inductive ReviewFetch
  | failure
  | notOk
  | page (scores critics years : List String)
deriving DecidableEq

/-- Mutable accumulator fields of `AllocineScraper`. -/
structure ScraperState where
  list_href : List (String × String)
  list_score : List Int
  list_critics : List String
  list_years : List String
  list_type : List String
deriving DecidableEq

def emptySt : ScraperState :=
  ⟨[], [], [], [], []⟩

/-- One candidate of the inner loop of `collect_review_links` at index `i`:
the anchor is kept when its stripped lowered text contains the marker. -/
def anchorPick (anchors : List Anchor) (typeName : String) (i : Nat) : Option (String × String) :=
  match anchors.get? i with
  | some a => if hasSpectateurs a.text then some (a.href, typeName) else none
  | none => none

/-- `for i in range(1, len(rating_tags), 2): ...` — Python
`range(1, n, 2)` has `n / 2` elements, embedded as `List.range' 1 (n / 2) 2`. -/
def extractAnchors (anchors : List Anchor) (typeName : String) : List (String × String) :=
  (List.range' 1 (anchors.length / 2) 2).filterMap (anchorPick anchors typeName)

/-- Inner page loop of `collect_review_links` for one category, starting
at page `nbPage` with `fuel` pages left; returns the accumulated
`list_href` and the trace of URLs loaded. A `timeout` page adds nothing. -/
def collectPagesLoop (env : String → ListingFetch) (typeName typeId : String)
    (nbPage : Nat) : Nat → List (String × String) → List (String × String) × List String
  | 0, acc => (acc, [])
  | fuel + 1, acc =>
    let url := listingUrl typeId nbPage
    let acc' :=
      match env url with
      | .timeout => acc
      | .page anchors => acc ++ extractAnchors anchors typeName
    let res := collectPagesLoop env typeName typeId (nbPage + 1) fuel acc'
    (res.1, url :: res.2)

/-- Outer category loop of `collect_review_links`. -/
def collectLoop (env : String → ListingFetch) (maxPages : Nat) :
    List (String × String) → List (String × String) → List (String × String) × List String
  | [], acc => (acc, [])
  | (typeName, typeId) :: rest, acc =>
    let inner := collectPagesLoop env typeName typeId 1 maxPages acc
    let outer := collectLoop env maxPages rest inner.1
    (outer.1, inner.2 ++ outer.2)

/-- `AllocineScraper.collect_review_links`, from an empty `list_href`. -/
def collect_review_links (env : String → ListingFetch)
    (typeDict : List (String × String)) (maxPages : Nat) :
    List (String × String) × List String :=
  collectLoop env maxPages typeDict []

/-- Python `zip(a, b, c)`: truncating positional triple pairing. -/
def zip3 (a : List α) (b : List β) (c : List γ) : List (α × β × γ) :=
  a.zip (b.zip c)

/-- The `for score, critic, year in zip(...)` loop body of
`scrape_reviews`. A `none` from `score_clean` models the `int(...)`
exception: it propagates to the `except` clause, so the remaining rows of
the page are dropped and the state already built is kept. -/
def processPage (typeName : String) : List (String × String × String) → ScraperState → ScraperState
  | [], st => st
  | (sc, cr, yr) :: rest, st =>
    match score_clean sc with
    | none => st
    | some v =>
      processPage typeName rest
        { st with
          list_score := st.list_score ++ [v]
          list_critics := st.list_critics ++ [critic_clean cr]
          list_years := st.list_years ++ [year_clean yr]
          list_type := st.list_type ++ [typeName] }

/-- Handling of one link in `scrape_reviews`: a raised exception or a
non-`ok` response leaves the state unchanged; otherwise the page's zipped
node sets are folded in. -/
def scrapeStep (env : String → ReviewFetch) (st : ScraperState)
    (link typeName : String) : ScraperState :=
  match env (reviewUrl link) with
  | .failure => st
  | .notOk => st
  | .page scores critics years => processPage typeName (zip3 scores critics years) st

/-- Link loop of `scrape_reviews`: `fuel` is the remaining budget of the
`if i >= max_reviews: break` check; returns the final state and the trace
of review URLs requested. -/
def scrapeLoop (env : String → ReviewFetch) :
    List (String × String) → Nat → ScraperState → ScraperState × List String
  | _, 0, st => (st, [])
  | [], _ + 1, st => (st, [])
  | (link, typeName) :: rest, fuel + 1, st =>
    let st' := scrapeStep env st link typeName
    let res := scrapeLoop env rest fuel st'
    (res.1, reviewUrl link :: res.2)

/-- `AllocineScraper.scrape_reviews(max_reviews)`. -/
def scrape_reviews (env : String → ReviewFetch) (st : ScraperState)
    (maxReviews : Nat) : ScraperState × List String :=
  scrapeLoop env st.list_href maxReviews st

/-- The assembled table: four named columns in the fixed order
`{critics, scores, date, types_movie}`. -/
structure ReviewTable where
  critics : List String
  scores : List Int
  date : List String
  types_movie : List String
deriving DecidableEq

/-- `AllocineScraper.to_dataframe`. -/
def to_dataframe (st : ScraperState) : ReviewTable :=
  { critics := st.list_critics
    scores := st.list_score
    date := st.list_years
    types_movie := st.list_type }

/-- The four parallel accumulators have equal length. -/
def alignedSt (st : ScraperState) : Prop :=
  st.list_critics.length = st.list_score.length ∧
  st.list_years.length = st.list_score.length ∧
  st.list_type.length = st.list_score.length

instance (st : ScraperState) : Decidable (alignedSt st) := by
  unfold alignedSt; infer_instance

/-! ### Spec-side definitions

These follow the spec's words, to be compared with the definitions
embedded from the source. -/

/-- The elements at odd indices 1, 3, 5, … of a list: the spec's
"every second matching anchor" / "odd-indexed elements". -/
def oddIndexed : List α → List α
  | [] => []
  | [_] => []
  | _ :: b :: rest => b :: oddIndexed rest

/-- Modelled from the spec: the listing URL pattern
`\x7bbase\x7d/films/genre-\x7bcategory_id\x7d/pays-\x7bcountry_id\x7d/?page=\x7bn\x7d`
with both ids taken from configuration. -/
def listingUrlSpec (categoryId countryId : String) (n : Nat) : String :=
  "https://www.allocine.fr/films/genre-" ++ categoryId ++ "/pays-" ++ countryId ++
    "/?page=" ++ toString n

/-- Drop one whitespace-delimited token. -/
def dropTokenWs (l : List Char) : List Char :=
  l.dropWhile (fun c => !pySpace c)

/-- Drop a whitespace run. -/
def dropWsRun (l : List Char) : List Char :=
  l.dropWhile pySpace

/-- Modelled from the spec: "the tail substring of the visible metadata
text after discarding its first two whitespace-delimited tokens". -/
def dateSpecWs (s : String) : String :=
  String.mk (dropWsRun (dropTokenWs (dropWsRun (dropTokenWs (pyStrip s).toList))))

/-- Modelled from the spec, amended: the trimmed metadata text split on
the single space character, the first two fields discarded, the rest
rejoined with single spaces. -/
def dateSpecSpace (s : String) : String :=
  String.intercalate " " ((pySplitChar (pyStrip s) ' ').drop 2)

/-- Modelled from the spec: "the integer portion before a decimal
separator in the visible rating text" (the separator is the comma of the
source locale). -/
def scoreSpec (s : String) : Option Int :=
  pyInt (pyStrip (String.mk ((pyStrip s).toList.takeWhile (fun d => !(d == ',')))))

/-- Number of rows a fetched review page can contribute. -/
def pageRows : ReviewFetch → Nat
  | .page scores critics years => (zip3 scores critics years).length
  | _ => 0

/-! ### Concrete inputs for witnesses and counterexamples -/

/-- An environment where every review page carries two parsable reviews. -/
def envTwoRows : String → ReviewFetch :=
  fun _ => .page ["4,0", "2,5"] [" c1 ", " c2 "] ["publiée le 1 mai 2020", "publiée le 2 mai 2020"]

/-- A scraper state holding a single discovered link. -/
def stOneLink : ScraperState :=
  ⟨[("L", "t")], [], [], [], []⟩

/-- An environment where only the review page of link `"B"` fails. -/
def env5 : String → ReviewFetch :=
  fun url =>
    if url = "B?page=1" then .failure
    else .page ["4,0"] [" avis "] ["publiée le 3 juin 2019"]

/-- A six-anchor listing page with alternating informational duplicates
and reviewer-count links; only odd indices carry the marker. -/
def sixAnchors : List Anchor :=
  [⟨"3,5", "h0"⟩, ⟨"10 critiques spectateurs", "h1"⟩,
   ⟨"2,8", "h2"⟩, ⟨"20 critiques spectateurs", "h3"⟩,
   ⟨"4,1", "h4"⟩, ⟨"30 critiques spectateurs", "h5"⟩]

/-- An environment that times out exactly on page 3 of category id
`"13002"` and serves the six-anchor page everywhere else. -/
def envT : String → ListingFetch :=
  fun url => if url = listingUrl "13002" 3 then .timeout else .page sixAnchors


/-! ### Helper lemmas -/

theorem processPage_aligned (typeName : String) (rows : List (String × String × String)) :
    ∀ st, alignedSt st → alignedSt (processPage typeName rows st) := by
  induction rows with
  | nil => intro st h; exact h
  | cons r rest ih =>
    intro st h
    obtain ⟨sc, cr, yr⟩ := r
    obtain ⟨h1, h2, h3⟩ := h
    simp only [processPage]
    cases hsc : score_clean sc with
    | none => exact ⟨h1, h2, h3⟩
    | some v =>
      exact ih _ ⟨by simp [h1], by simp [h2], by simp [h3]⟩

theorem processPage_len_le (typeName : String) (rows : List (String × String × String)) :
    ∀ st, (processPage typeName rows st).list_score.length ≤
      st.list_score.length + rows.length := by
  induction rows with
  | nil => intro st; simp [processPage]
  | cons r rest ih =>
    intro st
    obtain ⟨sc, cr, yr⟩ := r
    simp only [processPage]
    cases hsc : score_clean sc with
    | none => simp
    | some v =>
      have := ih { st with
        list_score := st.list_score ++ [v]
        list_critics := st.list_critics ++ [critic_clean cr]
        list_years := st.list_years ++ [year_clean yr]
        list_type := st.list_type ++ [typeName] }
      simp at this
      simp [List.length_cons]
      omega

theorem scrapeStep_aligned (env : String → ReviewFetch) (st : ScraperState)
    (link typeName : String) (h : alignedSt st) :
    alignedSt (scrapeStep env st link typeName) := by
  unfold scrapeStep
  cases env (reviewUrl link) with
  | failure => exact h
  | notOk => exact h
  | page scores critics years => exact processPage_aligned _ _ _ h

theorem scrapeStep_len_le (env : String → ReviewFetch) (st : ScraperState)
    (link typeName : String) :
    (scrapeStep env st link typeName).list_score.length ≤
      st.list_score.length + pageRows (env (reviewUrl link)) := by
  unfold scrapeStep
  cases env (reviewUrl link) with
  | failure => simp [pageRows]
  | notOk => simp [pageRows]
  | page scores critics years =>
    simpa [pageRows] using processPage_len_le typeName (zip3 scores critics years) st

theorem scrapeLoop_aligned (env : String → ReviewFetch) (hrefs : List (String × String)) :
    ∀ fuel st, alignedSt st → alignedSt (scrapeLoop env hrefs fuel st).1 := by
  induction hrefs with
  | nil => intro fuel st h; cases fuel <;> exact h
  | cons p rest ih =>
    intro fuel st h
    obtain ⟨link, typeName⟩ := p
    cases fuel with
    | zero => exact h
    | succ n =>
      simp only [scrapeLoop]
      exact ih n _ (scrapeStep_aligned env st link typeName h)

theorem scrapeLoop_trace (env : String → ReviewFetch) (hrefs : List (String × String)) :
    ∀ fuel st, (scrapeLoop env hrefs fuel st).2 =
      (hrefs.take fuel).map (fun p => reviewUrl p.1) := by
  induction hrefs with
  | nil => intro fuel st; cases fuel <;> simp [scrapeLoop]
  | cons p rest ih =>
    intro fuel st
    obtain ⟨link, typeName⟩ := p
    cases fuel with
    | zero => simp [scrapeLoop]
    | succ n => simp [scrapeLoop, ih]

theorem scrapeLoop_len_le (env : String → ReviewFetch) (B : Nat)
    (hB : ∀ url, pageRows (env url) ≤ B) (hrefs : List (String × String)) :
    ∀ fuel st, (scrapeLoop env hrefs fuel st).1.list_score.length ≤
      st.list_score.length + fuel * B := by
  induction hrefs with
  | nil => intro fuel st; cases fuel <;> simp [scrapeLoop]
  | cons p rest ih =>
    intro fuel st
    obtain ⟨link, typeName⟩ := p
    cases fuel with
    | zero => simp [scrapeLoop]
    | succ n =>
      simp only [scrapeLoop]
      have h1 := ih n (scrapeStep env st link typeName)
      have h2 := scrapeStep_len_le env st link typeName
      have h3 := hB (reviewUrl link)
      have : (n + 1) * B = n * B + B := by ring
      omega

/-- Links contributed by one `(category, page)` pair: none on a timeout. -/
def pageLinks (env : String → ListingFetch) (typeName typeId : String) (k : Nat) :
    List (String × String) :=
  match env (listingUrl typeId k) with
  | .timeout => []
  | .page anchors => extractAnchors anchors typeName

theorem collectPagesLoop_trace (env : String → ListingFetch) (typeName typeId : String) :
    ∀ fuel nbPage acc, (collectPagesLoop env typeName typeId nbPage fuel acc).2 =
      (List.range' nbPage fuel).map (listingUrl typeId) := by
  intro fuel
  induction fuel with
  | zero => intro nbPage acc; rfl
  | succ n ih =>
    intro nbPage acc
    rw [List.range'_succ]
    simp only [collectPagesLoop, List.map_cons]
    rw [ih]

theorem collectPagesLoop_links (env : String → ListingFetch) (typeName typeId : String) :
    ∀ fuel nbPage acc, (collectPagesLoop env typeName typeId nbPage fuel acc).1 =
      acc ++ (List.range' nbPage fuel).flatMap (pageLinks env typeName typeId) := by
  intro fuel
  induction fuel with
  | zero => intro nbPage acc; simp [collectPagesLoop]
  | succ n ih =>
    intro nbPage acc
    rw [List.range'_succ]
    simp only [collectPagesLoop, List.flatMap_cons]
    rw [ih]
    cases hE : env (listingUrl typeId nbPage) <;> simp [pageLinks, hE]

theorem collectLoop_trace (env : String → ListingFetch) (maxPages : Nat) :
    ∀ typeDict acc, (collectLoop env maxPages typeDict acc).2 =
      typeDict.flatMap (fun p => (List.range' 1 maxPages).map (listingUrl p.2)) := by
  intro typeDict
  induction typeDict with
  | nil => intro acc; rfl
  | cons p rest ih =>
    intro acc
    obtain ⟨typeName, typeId⟩ := p
    simp only [collectLoop, List.flatMap_cons]
    rw [collectPagesLoop_trace, ih]

theorem collectLoop_links (env : String → ListingFetch) (maxPages : Nat) :
    ∀ typeDict acc, (collectLoop env maxPages typeDict acc).1 =
      acc ++ typeDict.flatMap (fun p => (List.range' 1 maxPages).flatMap (pageLinks env p.1 p.2)) := by
  intro typeDict
  induction typeDict with
  | nil => intro acc; simp [collectLoop]
  | cons p rest ih =>
    intro acc
    obtain ⟨typeName, typeId⟩ := p
    simp only [collectLoop, List.flatMap_cons]
    rw [ih, collectPagesLoop_links]
    simp

theorem anchorPick_shift (x y : Anchor) (l : List Anchor) (tn : String) (k : Nat) :
    ∀ s, (List.range' (s + 2) k 2).filterMap (anchorPick (x :: y :: l) tn) =
      (List.range' s k 2).filterMap (anchorPick l tn) := by
  induction k with
  | zero => intro s; rfl
  | succ n ih =>
    intro s
    rw [List.range'_succ, List.range'_succ, List.filterMap_cons, List.filterMap_cons]
    have hpick : anchorPick (x :: y :: l) tn (s + 2) = anchorPick l tn s := by
      simp [anchorPick]
    rw [hpick]
    have := ih (s + 2)
    cases anchorPick l tn s <;> simp_all

theorem extractAnchors_eq_oddIndexed (tn : String) :
    ∀ anchors : List Anchor, extractAnchors anchors tn =
      (oddIndexed anchors).filterMap
        (fun a => if hasSpectateurs a.text then some (a.href, tn) else none)
  | [] => by simp [extractAnchors, oddIndexed]
  | [_] => by simp [extractAnchors, oddIndexed]
  | x :: y :: rest => by
    have hlen : (x :: y :: rest).length / 2 = rest.length / 2 + 1 := by
      simp only [List.length_cons]
      omega
    unfold extractAnchors
    rw [hlen, List.range'_succ, List.filterMap_cons]
    have hpick : anchorPick (x :: y :: rest) tn 1 =
        if hasSpectateurs y.text then some (y.href, tn) else none := by
      simp [anchorPick]
    have hshift := anchorPick_shift x y rest tn (rest.length / 2) 1
    have hrec := extractAnchors_eq_oddIndexed tn rest
    unfold extractAnchors at hrec
    rw [hpick, show (1 + 2 : Nat) = 3 from rfl] at *
    rw [hshift, hrec]
    simp only [oddIndexed, List.filterMap_cons]

theorem zip3_length (a : List α) (b : List β) (c : List γ) :
    (zip3 a b c).length = min a.length (min b.length c.length) := by
  simp [zip3]

theorem zip3_getD (d : α × β × γ) :
    ∀ (a : List α) (b : List β) (c : List γ) (i : Nat), i < (zip3 a b c).length →
      (zip3 a b c).getD i d = (a.getD i d.1, b.getD i d.2.1, c.getD i d.2.2)
  | [], _, _, i, h => by simp [zip3] at h
  | _ :: _, [], _, i, h => by simp [zip3] at h
  | _ :: _, _ :: _, [], i, h => by simp [zip3] at h
  | x :: a, y :: b, z :: c, 0, h => by simp [zip3]
  | x :: a, y :: b, z :: c, i + 1, h => by
    have hlt : i < (zip3 a b c).length := by
      simp [zip3] at h ⊢
      omega
    have := zip3_getD d a b c i hlt
    simpa [zip3] using this

theorem processPage_all_some (typeName : String) :
    ∀ (rows : List (String × String × String)) st,
      (∀ r ∈ rows, (score_clean r.1).isSome) →
      processPage typeName rows st =
        { st with
          list_score := st.list_score ++ rows.filterMap (fun r => score_clean r.1)
          list_critics := st.list_critics ++ rows.map (fun r => critic_clean r.2.1)
          list_years := st.list_years ++ rows.map (fun r => year_clean r.2.2)
          list_type := st.list_type ++ rows.map (fun _ => typeName) } := by
  intro rows
  induction rows with
  | nil => intro st _; simp [processPage]
  | cons r rest ih =>
    intro st h
    obtain ⟨sc, cr, yr⟩ := r
    have hsc := h (sc, cr, yr) (List.mem_cons_self _ _)
    obtain ⟨v, hv⟩ := Option.isSome_iff_exists.mp hsc
    simp only [processPage, hv]
    rw [ih _ (fun r hr => h r (List.mem_cons_of_mem _ hr))]
    simp [List.filterMap_cons, hv]

theorem processPage_stop (typeName : String) :
    ∀ (good : List (String × String × String)) (bad : String × String × String)
      (rest : List (String × String × String)) st,
      (∀ r ∈ good, (score_clean r.1).isSome) →
      score_clean bad.1 = none →
      processPage typeName (good ++ bad :: rest) st = processPage typeName good st := by
  intro good
  induction good with
  | nil =>
    intro bad rest st _ hbad
    obtain ⟨sc, cr, yr⟩ := bad
    simp only [List.nil_append, processPage]
    simp only at hbad
    simp [hbad]
  | cons r good' ih =>
    intro bad rest st h hbad
    obtain ⟨sc, cr, yr⟩ := r
    have hsc := h (sc, cr, yr) (List.mem_cons_self _ _)
    obtain ⟨v, hv⟩ := Option.isSome_iff_exists.mp hsc
    simp only [List.cons_append, processPage, hv]
    exact ih bad rest _ (fun r hr => h r (List.mem_cons_of_mem _ hr)) hbad

theorem splitCharAux_head (c : Char) :
    ∀ (l acc : List Char), (splitCharAux c l acc).head? =
      some (acc.reverse ++ l.takeWhile (fun d => !(d == c))) := by
  intro l
  induction l with
  | nil => intro acc; simp [splitCharAux]
  | cons d rest ih =>
    intro acc
    by_cases hdc : (d == c) = true
    · simp [splitCharAux, hdc, List.takeWhile_cons]
    · simp only [splitCharAux, hdc, if_false, Bool.false_eq_true]
      rw [ih (d :: acc)]
      simp [List.takeWhile_cons, hdc]

theorem pySplitChar_headD (s : String) (c : Char) :
    (pySplitChar s c).headD "" = String.mk (s.toList.takeWhile (fun d => !(d == c))) := by
  have h := splitCharAux_head c s.toList []
  unfold pySplitChar
  cases hsp : splitCharAux c s.toList [] with
  | nil => rw [hsp] at h; simp at h
  | cons x xs =>
    rw [hsp] at h
    simp only [List.head?_cons, Option.some.injEq, List.reverse_nil, List.nil_append] at h
    simp [h]

theorem score_clean_eq_spec (s : String) : score_clean s = scoreSpec s := by
  unfold score_clean scoreSpec
  rw [pySplitChar_headD]

theorem year_clean_eq_dateSpecSpace (s : String) : year_clean s = dateSpecSpace s := rfl

theorem listingUrl_eq_spec (typeId : String) (nbPage : Nat) :
    listingUrl typeId nbPage = listingUrlSpec typeId "5002" nbPage := by
  unfold listingUrl listingUrlSpec
  rw [String.append_assoc _ "/pays-" "5002", String.append_assoc _ ("/pays-" ++ "5002") "/?page="]
  rfl

/-! ### Claim theorems -/

/-- Claim C1: at every point during `scrape_reviews` (each page-loop step
preserves it) and in the table assembled by `to_dataframe`, the four
parallel accumulators have equal length: a row is appended only with all
four fields resolved, so partial reviews are discarded. -/
theorem c1_parallel_accumulators_aligned :
    (∀ typeName rows st, alignedSt st → alignedSt (processPage typeName rows st)) ∧
    (∀ env st maxReviews, alignedSt st → alignedSt (scrape_reviews env st maxReviews).1) ∧
    (∀ st, alignedSt st →
      ((to_dataframe st).critics.length = (to_dataframe st).scores.length ∧
        (to_dataframe st).date.length = (to_dataframe st).scores.length ∧
        (to_dataframe st).types_movie.length = (to_dataframe st).scores.length)) :=
  ⟨fun typeName rows st h => processPage_aligned typeName rows st h,
   fun env st maxReviews h => scrapeLoop_aligned env st.list_href maxReviews st h,
   fun _ h => h⟩

/-- Witness for C1 at a concrete run. -/
theorem c1_parallel_accumulators_aligned_witness :
    alignedSt (scrape_reviews envTwoRows stOneLink 1).1 :=
  c1_parallel_accumulators_aligned.2.1 envTwoRows stOneLink 1 (by decide)

/-- Claim C2, counterexample: with a cap of 1 and a single link whose page
yields two reviews, the accumulators and the assembled table hold 2 rows,
exceeding the cap. -/
theorem c2_rowcap_counterexample :
    (scrape_reviews envTwoRows stOneLink 1).1.list_score.length = 2 ∧
    (to_dataframe (scrape_reviews envTwoRows stOneLink 1).1).scores.length = 2 ∧
    ¬ (scrape_reviews envTwoRows stOneLink 1).1.list_score.length ≤ 1 := by
  decide

/-- Claim C2, amended: the cap bounds the number of links iterated, so the
row count is bounded by the cap times a bound on the rows any fetched page
contributes, not by the cap itself. -/
theorem c2_rowcount_bounded_by_cap_times_pagerows :
    ∀ env st maxReviews B, (∀ url, pageRows (env url) ≤ B) →
      (scrape_reviews env st maxReviews).1.list_score.length ≤
        st.list_score.length + maxReviews * B :=
  fun env st maxReviews B hB => scrapeLoop_len_le env B hB st.list_href maxReviews st

/-- Witness for the amended C2 at a concrete run. -/
theorem c2_rowcount_bounded_witness :
    (scrape_reviews envTwoRows stOneLink 1).1.list_score.length ≤
      stOneLink.list_score.length + 1 * 2 :=
  c2_rowcount_bounded_by_cap_times_pagerows envTwoRows stOneLink 1 2
    (by intro url; simp [envTwoRows, pageRows, zip3])

/-- Claim C3: `scrape_reviews` consumes the discovered links strictly in
order and attempts at most `max_reviews` of them: the trace of fetched
URLs is exactly the first-`cap` prefix of the links, in order. -/
theorem c3_cap_bounds_link_iterations :
    ∀ env st maxReviews,
      (scrape_reviews env st maxReviews).2 =
        (st.list_href.take maxReviews).map (fun p => reviewUrl p.1) :=
  fun env st maxReviews => scrapeLoop_trace env st.list_href maxReviews st

/-- Claim C4: during link collection every `(category, page)` pair is
attempted whatever the environment does, a page that times out contributes
no links, and the links collected are exactly the per-page contributions
of all other pages. -/
theorem c4_timeout_skips_single_page :
    (∀ env typeDict maxPages,
      (collect_review_links env typeDict maxPages).2 =
        typeDict.flatMap (fun p => (List.range' 1 maxPages).map (listingUrl p.2))) ∧
    (∀ env typeDict maxPages,
      (collect_review_links env typeDict maxPages).1 =
        typeDict.flatMap (fun p => (List.range' 1 maxPages).flatMap (pageLinks env p.1 p.2))) ∧
    (∀ env typeName typeId k, env (listingUrl typeId k) = ListingFetch.timeout →
      pageLinks env typeName typeId k = []) :=
  ⟨fun env typeDict maxPages => collectLoop_trace env maxPages typeDict [],
   fun env typeDict maxPages => by
    unfold collect_review_links
    rw [collectLoop_links]
    simp,
   fun env typeName typeId k h => by simp [pageLinks, h]⟩

/-- Witness for C4: page 3 of 5 times out, yet all five pages are fetched
and the timed-out page contributes nothing. -/
theorem c4_timeout_witness :
    pageLinks envT "drame" "13002" 3 = [] ∧
    (collect_review_links envT [("drame", "13002")] 5).2 =
      [("drame", "13002")].flatMap
        (fun p => (List.range' 1 5).map (listingUrl p.2)) :=
  ⟨c4_timeout_skips_single_page.2.2 envT "drame" "13002" 3 (by decide),
   c4_timeout_skips_single_page.1 envT [("drame", "13002")] 5⟩

/-- Claim C5: a failure on one link leaves the state untouched for that
link and the loop proceeds to the remaining links with the remaining
budget; the failed URL still appears in the attempt trace. -/
theorem c5_link_failure_skipped :
    ∀ env link typeName rest fuel st,
      env (reviewUrl link) = ReviewFetch.failure →
      scrapeLoop env ((link, typeName) :: rest) (fuel + 1) st =
        ((scrapeLoop env rest fuel st).1,
          reviewUrl link :: (scrapeLoop env rest fuel st).2) := by
  intro env link typeName rest fuel st h
  simp [scrapeLoop, scrapeStep, h]

/-- Witness for C5: of four links, the second fails; the other three still
produce their rows. -/
theorem c5_link_failure_witness :
    scrapeLoop env5 [("B", "t"), ("C", "t"), ("D", "t")] 3 emptySt =
      ((scrapeLoop env5 [("C", "t"), ("D", "t")] 2 emptySt).1,
        reviewUrl "B" :: (scrapeLoop env5 [("C", "t"), ("D", "t")] 2 emptySt).2) ∧
    (scrapeLoop env5 [("A", "t"), ("B", "t"), ("C", "t"), ("D", "t")] 4 emptySt).1.list_score =
      [4, 4, 4] :=
  ⟨c5_link_failure_skipped env5 "B" "t" [("C", "t"), ("D", "t")] 2 emptySt (by decide),
   by decide⟩

/-- Claim C6: link extraction keeps exactly the odd-indexed anchors whose
text contains the marker, tagging each href with the category; on the
six-anchor alternating page exactly three tagged links come out. -/
theorem c6_every_second_anchor_with_marker :
    (∀ anchors typeName, extractAnchors anchors typeName =
      (oddIndexed anchors).filterMap
        (fun a => if hasSpectateurs a.text then some (a.href, typeName) else none)) ∧
    extractAnchors sixAnchors "drame" =
      [("h1", "drame"), ("h3", "drame"), ("h5", "drame")] :=
  ⟨fun anchors typeName => extractAnchors_eq_oddIndexed typeName anchors, by decide⟩

/-- Claim C7, counterexample: the code splits the metadata text on the
single space character, not on whitespace-delimited tokens; on a text with
an internal tab the produced date differs from the claimed tail substring
after two whitespace-delimited tokens. -/
theorem c7_whitespace_token_counterexample :
    (processPage "t" [("4,0", " bon film ", "a b\tc d")] emptySt).list_years = ["d"] ∧
    dateSpecWs "a b\tc d" = "c d" ∧
    ("d" : String) ≠ "c d" := by
  decide

/-- Claim C7, amended: the score is the integer portion before the comma,
the critique is the raw trimmed text, and the date is the trimmed metadata
text split on the single space character with the first two fields
discarded and the rest rejoined; on the spec's two-review page the rows
come out in page order as claimed. -/
theorem c7_field_normalization_space_delimited :
    (∀ s, score_clean s = scoreSpec s) ∧
    (∀ s, critic_clean s = pyStrip s) ∧
    (∀ s, year_clean s = dateSpecSpace s) ∧
    processPage "drame"
        (zip3 ["4,0", "2,5"] [" Très bon film. ", " Décevant. "]
          ["publiée le 12 mars 2023", "publiée le 5 juin 2021"]) emptySt =
      { list_href := []
        list_score := [4, 2]
        list_critics := ["Très bon film.", "Décevant."]
        list_years := ["12 mars 2023", "5 juin 2021"]
        list_type := ["drame", "drame"] } :=
  ⟨score_clean_eq_spec, fun _ => rfl, year_clean_eq_dateSpecSpace, by decide⟩

/-- Claim C8: the three node sets are paired positionally; only the
overlapping prefix of length `min` produces rows, the i-th row coming from
the i-th elements, and the page's rows are appended in that order. -/
theorem c8_positional_prefix_pairing :
    ∀ (scores critics years : List String) typeName st,
      (∀ r ∈ zip3 scores critics years, (score_clean r.1).isSome) →
      ((zip3 scores critics years).length =
          min scores.length (min critics.length years.length) ∧
        (∀ i d, i < (zip3 scores critics years).length →
          (zip3 scores critics years).getD i d =
            (scores.getD i d.1, critics.getD i d.2.1, years.getD i d.2.2)) ∧
        processPage typeName (zip3 scores critics years) st =
          { st with
            list_score := st.list_score ++
              (zip3 scores critics years).filterMap (fun r => score_clean r.1)
            list_critics := st.list_critics ++
              (zip3 scores critics years).map (fun r => critic_clean r.2.1)
            list_years := st.list_years ++
              (zip3 scores critics years).map (fun r => year_clean r.2.2)
            list_type := st.list_type ++
              (zip3 scores critics years).map (fun _ => typeName) }) :=
  fun scores critics years typeName st h =>
    ⟨zip3_length scores critics years,
     fun i d hi => zip3_getD d scores critics years i hi,
     processPage_all_some typeName (zip3 scores critics years) st h⟩

/-- Witness for C8: three scores, two critiques, one date give exactly one
row, built from the first element of each set. -/
theorem c8_positional_prefix_witness :
    (zip3 ["4,0", "2,5", "3,0"] ["a", "b"] ["x y z w"]).length = 1 ∧
    processPage "t" (zip3 ["4,0", "2,5", "3,0"] ["a", "b"] ["x y z w"]) emptySt =
      { list_href := []
        list_score := [4]
        list_critics := ["a"]
        list_years := ["z w"]
        list_type := ["t"] } :=
  have h := c8_positional_prefix_pairing ["4,0", "2,5", "3,0"] ["a", "b"] ["x y z w"]
    "t" emptySt (by decide)
  ⟨h.1.trans (by decide), h.2.2.trans (by decide)⟩

/-- Claim C9, counterexample: the country id in the listing URL is the
hardcoded `5002`, not a configured value: the fetched URL matches the spec
pattern only when the configured country id is `"5002"`. -/
theorem c9_hardcoded_country_counterexample :
    listingUrl "13002" 1 = listingUrlSpec "13002" "5002" 1 ∧
    listingUrl "13002" 1 ≠ listingUrlSpec "13002" "9999" 1 := by
  constructor
  · decide
  · decide

/-- Claim C9, amended: every listing fetch uses exactly the pattern URL
with the configured category id and the fixed country id `5002`, and every
review fetch uses exactly `link ++ "?page=1"`. -/
theorem c9_url_patterns :
    (∀ typeId nbPage, listingUrl typeId nbPage = listingUrlSpec typeId "5002" nbPage) ∧
    (∀ env typeDict maxPages,
      (collect_review_links env typeDict maxPages).2 =
        typeDict.flatMap (fun p => (List.range' 1 maxPages).map (listingUrl p.2))) ∧
    (∀ env st maxReviews,
      (scrape_reviews env st maxReviews).2 =
        (st.list_href.take maxReviews).map (fun p => p.1 ++ "?page=1")) :=
  ⟨listingUrl_eq_spec,
   fun env typeDict maxPages => collectLoop_trace env maxPages typeDict [],
   fun env st maxReviews => scrapeLoop_trace env st.list_href maxReviews st⟩

/-- Claim C10: an unparsable score in the i-th review of a page keeps the
rows already appended for the earlier reviews, skips that review and all
remaining reviews of the page, and preserves the equal-length invariant. -/
theorem c10_midpage_failure_keeps_prefix :
    ∀ typeName (good : List (String × String × String)) bad rest st,
      (∀ r ∈ good, (score_clean r.1).isSome) →
      score_clean bad.1 = none →
      (processPage typeName (good ++ bad :: rest) st = processPage typeName good st ∧
        (alignedSt st → alignedSt (processPage typeName (good ++ bad :: rest) st))) :=
  fun typeName good bad rest st h hbad =>
    ⟨processPage_stop typeName good bad rest st h hbad,
     fun ha => processPage_aligned typeName (good ++ bad :: rest) st ha⟩

/-- Witness for C10: the second of three reviews has rating text `"x,0"`;
the first review's row is kept, the second and third produce nothing, and
the accumulators stay aligned. -/
theorem c10_midpage_failure_witness :
    processPage "t"
        ([("4,0", " a ", "p q r")] ++ ("x,0", " b ", "p q s") :: [("2,5", " c ", "p q t")])
        emptySt =
      processPage "t" [("4,0", " a ", "p q r")] emptySt ∧
    alignedSt (processPage "t"
      ([("4,0", " a ", "p q r")] ++ ("x,0", " b ", "p q s") :: [("2,5", " c ", "p q t")])
      emptySt) :=
  have h := c10_midpage_failure_keeps_prefix "t" [("4,0", " a ", "p q r")]
    ("x,0", " b ", "p q s") [("2,5", " c ", "p q t")] emptySt (by decide) (by decide)
  ⟨h.1, h.2 (by decide)⟩
